import Mathlib

/-!
Verification of the fillet-based path-smoothing engine of `Path_Splining.py`.

The Python source works on `[x, y]` coordinate pairs with `math.sqrt`,
`math.atan2`, `math.asin`, `math.cos`, `math.sin`.  We embed it over the real
numbers: `math.atan2 y x` becomes `Complex.arg ⟨x, y⟩` (which has exactly the
`atan2` range `(-π, π]` and sign conventions), `math.asin` becomes
`Real.arcsin`, and Python exceptions (`ValueError`, `ZeroDivisionError`,
`IndexError`, the "NO CASE FOUND" fallback) become an explicit `Except` error
type.  Python's `round(x, 8)` is modelled as `round (x * 10^8) / 10^8` with
Mathlib's `round` (nearest integer; Python rounds half to even, which differs
only at exact half-way points — none of which occur in the developments
below).
-/

open scoped Real

noncomputable section

/-- Planar point, the `[x, y]` pairs of the source. -/
abbrev Point : Type := ℝ × ℝ

/-- The failure modes of the engine: `waypointsTooClose` is the
`ValueError("Waypoints too close together.")` of `check_minimum_waypoint_radius`,
`constrainPiError` the `ValueError("Constrain to PI error.")` of
`calculate_curve_exit`, `zeroDivisionError` a Python `ZeroDivisionError`,
`mathDomainError` a `math.asin` domain error, `indexError` a list-index error,
and `noCaseFound` the `"NO CASE FOUND: MAJOR BUG"` fallback return. -/
inductive SplineErr : Type
  | waypointsTooClose
  | constrainPiError
  | zeroDivisionError
  | mathDomainError
  | indexError
  | noCaseFound
deriving DecidableEq

/-- Tag of the per-curve descriptor: the source's `"straight"` / `"curve"`
string tags. -/
inductive CentreTag : Type
  | straight
  | curve
deriving DecidableEq

/-- The source's `["straight"/"curve", centre_point]` pairs. -/
abbrev CentreData : Type := CentreTag × Point

/-- `math.atan2 y x`, realised as the argument of the complex number `x + y i`;
this has the same range `(-π, π]` and quadrant conventions as `atan2`. -/
def atan2 (y x : ℝ) : ℝ := Complex.arg ⟨x, y⟩

/-- `distance_between_two_points` of the source (lines 153-161). -/
def distance_between_two_points (point_one point_two : Point) : ℝ :=
  Real.sqrt ((point_one.2 - point_two.2) ^ 2 + (point_one.1 - point_two.1) ^ 2)

/-- `sign` of the source (lines 195-208). -/
def sign (x : ℝ) : ℝ :=
  if x > 0 then 1 else if x < 0 then -1 else 0

/-- `constrain_pi` of the source (lines 182-193): the `while` loop that adds or
subtracts `2π` until the angle is in `[-π, π]`.  Inside one loop iteration the
two `if`s are mutually exclusive (after `theta + 2π` for `theta < -π` the
result is `< π`), so the loop is the following recursion. -/
def constrain_pi (theta : ℝ) : ℝ :=
  if theta < -π then constrain_pi (theta + 2 * π)
  else if theta > π then constrain_pi (theta - 2 * π)
  else theta
termination_by (⌈(|theta| + π) / (2 * π)⌉).toNat
decreasing_by
  · -- case `theta < -π`: recursive call at `theta + 2 * π`
    rename_i h
    have hπ : (0:ℝ) < π := Real.pi_pos
    have habs : |theta| = -theta := abs_of_neg (by linarith)
    rcases le_or_lt (theta + 2 * π) 0 with h0 | h0
    · have habs2 : |theta + 2 * π| = -(theta + 2 * π) := by
        rcases eq_or_lt_of_le h0 with h0e | h0l
        · rw [h0e]; simp
        · exact abs_of_neg h0l
      have key : (|theta + 2 * π| + π) / (2 * π) = (|theta| + π) / (2 * π) - 1 := by
        rw [habs, habs2]; field_simp; ring
      have hpos : 0 < (|theta| + π) / (2 * π) := by
        apply div_pos; · rw [habs]; linarith
        · linarith
      have hceil : 0 < ⌈(|theta| + π) / (2 * π)⌉ := Int.ceil_pos.mpr hpos
      rw [key, Int.ceil_sub_one]
      omega
    · have habs2 : |theta + 2 * π| = theta + 2 * π := abs_of_pos h0
      have hle : (|theta + 2 * π| + π) / (2 * π) ≤ 1 := by
        rw [habs2, div_le_one (by linarith)]; linarith
      have hlt : (1:ℝ) < (|theta| + π) / (2 * π) := by
        rw [habs, lt_div_iff (by linarith)]; linarith
      have h1 : ⌈(|theta + 2 * π| + π) / (2 * π)⌉ ≤ 1 := Int.ceil_le.mpr (by simpa using hle)
      have h2 : (1:ℤ) < ⌈(|theta| + π) / (2 * π)⌉ := Int.lt_ceil.mpr (by simpa using hlt)
      omega
  · -- case `theta > π`: recursive call at `theta - 2 * π`
    rename_i h1 h
    have hπ : (0:ℝ) < π := Real.pi_pos
    have habs : |theta| = theta := abs_of_pos (by linarith)
    rcases le_or_lt 0 (theta - 2 * π) with h0 | h0
    · have habs2 : |theta - 2 * π| = theta - 2 * π := abs_of_nonneg h0
      have key : (|theta - 2 * π| + π) / (2 * π) = (|theta| + π) / (2 * π) - 1 := by
        rw [habs, habs2]; field_simp; ring
      have hpos : 0 < (|theta| + π) / (2 * π) := by
        apply div_pos; · rw [habs]; linarith
        · linarith
      have hceil : 0 < ⌈(|theta| + π) / (2 * π)⌉ := Int.ceil_pos.mpr hpos
      rw [key, Int.ceil_sub_one]
      omega
    · have habs2 : |theta - 2 * π| = -(theta - 2 * π) := abs_of_neg h0
      have hle : (|theta - 2 * π| + π) / (2 * π) ≤ 1 := by
        rw [habs2, div_le_one (by linarith)]; linarith
      have hlt : (1:ℝ) < (|theta| + π) / (2 * π) := by
        rw [habs, lt_div_iff (by linarith)]; linarith
      have hc1 : ⌈(|theta - 2 * π| + π) / (2 * π)⌉ ≤ 1 := Int.ceil_le.mpr (by simpa using hle)
      have hc2 : (1:ℤ) < ⌈(|theta| + π) / (2 * π)⌉ := Int.lt_ceil.mpr (by simpa using hlt)
      omega

lemma constrain_pi_of_mem (theta : ℝ) (h1 : ¬ theta < -π) (h2 : ¬ theta > π) :
    constrain_pi theta = theta := by
  rw [constrain_pi, if_neg h1, if_neg h2]

/-- The result of `constrain_pi` always lies in the closed interval `[-π, π]`. -/
lemma constrain_pi_mem_Icc (theta : ℝ) : constrain_pi theta ∈ Set.Icc (-π) π := by
  induction theta using constrain_pi.induct with
  | case1 θ h ih => rw [constrain_pi, if_pos h]; exact ih
  | case2 θ h1 h2 ih => rw [constrain_pi, if_neg h1, if_pos h2]; exact ih
  | case3 θ h1 h2 => rw [constrain_pi, if_neg h1, if_neg h2]; constructor <;> linarith

/-- If `constrain_pi` returns exactly `-π`, the input was at most `-π`. -/
lemma le_of_constrain_pi_eq_neg_pi (theta : ℝ) (h : constrain_pi theta = -π) :
    theta ≤ -π := by
  induction theta using constrain_pi.induct with
  | case1 θ hl ih => linarith
  | case2 θ h1 h2 ih =>
    rw [constrain_pi, if_neg h1, if_pos h2] at h
    have := ih h
    linarith
  | case3 θ h1 h2 =>
    rw [constrain_pi, if_neg h1, if_neg h2] at h
    linarith

/-- Claim C7 counterexample: at the input `-π`, `constrain_pi` returns `-π`,
which is not in the half-open interval `(-π, π]`; so `constrain_pi` does not
always return a value in `(-π, π]` as the claim states. -/
theorem c7_counterexample :
    constrain_pi (-π) = -π ∧ constrain_pi (-π) ∉ Set.Ioc (-π) π := by
  have hπ : (0:ℝ) < π := Real.pi_pos
  have h : constrain_pi (-π) = -π :=
    constrain_pi_of_mem (-π) (by simp) (by intro h; linarith)
  refine ⟨h, ?_⟩
  rw [h]
  intro hmem
  exact absurd hmem.1 (lt_irrefl _)

/-- Claim C7 (amended): `constrain_pi` is idempotent, and for every input its
result lies in the closed interval `[-π, π]` (the endpoint `-π` is attained,
e.g. at input `-π`, so the range is not the half-open `(-π, π]`). -/
theorem c7_constrain_pi_idempotent_and_range (x : ℝ) :
    constrain_pi (constrain_pi x) = constrain_pi x ∧
      constrain_pi x ∈ Set.Icc (-π) π := by
  have hmem := constrain_pi_mem_Icc x
  refine ⟨?_, hmem⟩
  exact constrain_pi_of_mem _ (not_lt.mpr hmem.1) (not_lt.mpr hmem.2)

/-- Real-valued `mod`: `real_mod x m` is the representative of `x` modulo `m`
in `[0, m)` (for `m > 0`). Used to state the spec's sweep distances. -/
def real_mod (x m : ℝ) : ℝ := x - m * ⌊x / m⌋

lemma real_mod_of_nonneg_of_lt {x m : ℝ} (hm : 0 < m) (h0 : 0 ≤ x) (h1 : x < m) :
    real_mod x m = x := by
  have hfloor : ⌊x / m⌋ = 0 := by
    rw [Int.floor_eq_zero_iff]
    constructor
    · exact div_nonneg h0 (le_of_lt hm)
    · rw [div_lt_one hm]; exact h1
  rw [real_mod, hfloor]
  simp

lemma real_mod_of_neg_of_le {x m : ℝ} (hm : 0 < m) (h0 : x < 0) (h1 : -m ≤ x) :
    real_mod x m = x + m := by
  have hfloor : ⌊x / m⌋ = -1 := by
    rw [Int.floor_eq_iff]
    push_cast
    constructor
    · rw [neg_le, ← neg_div, div_le_one hm]
      linarith
    · have : x / m < 0 := div_neg_of_neg_of_pos h0 hm
      linarith
  rw [real_mod, hfloor]
  push_cast
  ring

/-- `get_angle_range` of the source (lines 227-259). -/
def get_angle_range (first_angle second_angle : ℝ) (is_clockwise : Bool) : ℝ :=
  let angle_range :=
    if first_angle > 0 then
      if second_angle > first_angle then
        if is_clockwise then second_angle - first_angle else second_angle - first_angle
      else
        if is_clockwise then first_angle - second_angle
        else 2 * π - first_angle + second_angle
    else
      if second_angle > first_angle then
        if is_clockwise then 2 * π + first_angle - second_angle
        else second_angle - first_angle
      else
        if is_clockwise then first_angle - second_angle
        else 2 * π - first_angle + second_angle
  if is_clockwise then - angle_range else angle_range

/-- Claim C5 (amended): for first and second angles in `(-π, π]`,
`get_angle_range` returns the signed directional sweep (negative when
clockwise, positive when counter-clockwise, magnitude the `mod-2π` angular
distance travelled in that direction) EXCEPT in two situations forced by the
code: counter-clockwise with equal angles returns `2π` instead of `0`, and
clockwise with `0 < first < second` returns `-(second - first)` (the negated
counter-clockwise sweep) instead of `-(2π - (second - first))`. -/
theorem c5_get_angle_range_characterisation (a b : ℝ) (cw : Bool)
    (ha : a ∈ Set.Ioc (-π) π) (hb : b ∈ Set.Ioc (-π) π) :
    get_angle_range a b cw =
      if cw then
        (if 0 < a ∧ a < b then -(b - a) else -(real_mod (a - b) (2 * π)))
      else
        (if a = b then 2 * π else real_mod (b - a) (2 * π)) := by
  obtain ⟨ha1, ha2⟩ := ha
  obtain ⟨hb1, hb2⟩ := hb
  have hπ := Real.pi_pos
  have h2π : (0:ℝ) < 2 * π := by linarith
  cases cw with
  | false =>
    simp only [get_angle_range, Bool.false_eq_true, if_false]
    by_cases hab : a = b
    · subst hab
      rw [if_pos rfl]
      by_cases h0 : a > 0
      · rw [if_pos h0, if_neg (lt_irrefl a)]; ring
      · rw [if_neg h0, if_neg (lt_irrefl a)]; ring
    · rw [if_neg hab]
      by_cases h0 : a > 0
      · by_cases hba : b > a
        · rw [if_pos h0, if_pos hba,
            real_mod_of_nonneg_of_lt h2π (by linarith) (by linarith)]
        · have hlt : b < a := lt_of_le_of_ne (not_lt.mp hba) (fun hh => hab hh.symm)
          rw [if_pos h0, if_neg hba,
            real_mod_of_neg_of_le h2π (by linarith) (by linarith)]
          ring
      · by_cases hba : b > a
        · rw [if_neg h0, if_pos hba,
            real_mod_of_nonneg_of_lt h2π (by linarith) (by linarith)]
        · have hlt : b < a := lt_of_le_of_ne (not_lt.mp hba) (fun hh => hab hh.symm)
          rw [if_neg h0, if_neg hba,
            real_mod_of_neg_of_le h2π (by linarith) (by linarith)]
          ring
  | true =>
    simp only [get_angle_range, reduceIte]
    by_cases h0 : a > 0
    · by_cases hba : b > a
      · rw [if_pos h0, if_pos hba, if_pos ⟨h0, hba⟩]
      · rw [if_pos h0, if_neg hba, if_neg (by intro hc; exact hba hc.2),
          real_mod_of_nonneg_of_lt h2π (by linarith [not_lt.mp hba]) (by linarith)]
    · by_cases hba : b > a
      · rw [if_neg h0, if_pos hba, if_neg (by intro hc; exact h0 hc.1),
          real_mod_of_neg_of_le h2π (by linarith) (by linarith)]
        ring
      · rw [if_neg h0, if_neg hba, if_neg (by intro hc; exact h0 hc.1),
          real_mod_of_nonneg_of_lt h2π (by linarith [not_lt.mp hba]) (by linarith)]

/-- Claim C5 counterexample: at first angle `1`, second angle `2` (both in
`(-π, π]`) with the clockwise flag set, `get_angle_range` returns `-1`,
whereas the clockwise sweep distance from `1` to `2` is `2π - 1`, so the
returned magnitude is not the angular distance travelled in the clockwise
direction. -/
theorem c5_counterexample :
    (1:ℝ) ∈ Set.Ioc (-π) π ∧ (2:ℝ) ∈ Set.Ioc (-π) π ∧
    get_angle_range 1 2 true = -1 ∧
    get_angle_range 1 2 true ≠ -(real_mod ((1:ℝ) - 2) (2 * π)) := by
  have hπ3 := Real.pi_gt_three
  have hπ : (0:ℝ) < π := Real.pi_pos
  have h2π : (0:ℝ) < 2 * π := by linarith
  have hval : get_angle_range 1 2 true = -1 := by
    simp only [get_angle_range, reduceIte]
    norm_num
  refine ⟨⟨by linarith, by linarith⟩, ⟨by linarith, by linarith⟩, hval, ?_⟩
  rw [hval, real_mod_of_neg_of_le h2π (by norm_num) (by linarith)]
  intro hcontra
  have : (2:ℝ) * π = 2 := by linarith
  linarith

/-- Claim C5 witness: the characterisation theorem applied at first angle `1`,
second angle `0`, clockwise; there the code's value `-1` agrees with the
clockwise sweep distance `real_mod (1 - 0) (2π) = 1`. -/
theorem c5_witness :
    get_angle_range 1 0 true =
      (if (true : Bool) then
        (if (0:ℝ) < 1 ∧ (1:ℝ) < 0 then -((0:ℝ) - 1)
         else -(real_mod ((1:ℝ) - 0) (2 * π)))
       else (if (1:ℝ) = 0 then 2 * π else real_mod ((0:ℝ) - 1) (2 * π))) ∧
    real_mod ((1:ℝ) - 0) (2 * π) = 1 := by
  have hπ3 := Real.pi_gt_three
  constructor
  · exact c5_get_angle_range_characterisation 1 0 true
      ⟨by linarith, by linarith⟩ ⟨by linarith, by linarith⟩
  · rw [show (1:ℝ) - 0 = 1 by ring]
    exact real_mod_of_nonneg_of_lt (by linarith) (by norm_num) (by linarith)

/-- `mirror_across_line` of the source (lines 303-324), with Python's
`ZeroDivisionError` made explicit: the first division is by
`xn² - 2·xn·xo + xo² + (yn - yo)²` and the second (the slope `m`) is by
`xn - xo`. -/
def mirror_across_line (line_point1 line_point2 point : Point) :
    Except SplineErr Point :=
  let xm := point.1
  let ym := point.2
  let xo := line_point1.1
  let yo := line_point1.2
  let xn := line_point2.1
  let yn := line_point2.2
  let denominator := xn ^ 2 - 2 * xn * xo + xo ^ 2 + (yn - yo) ^ 2
  if denominator = 0 then .error .zeroDivisionError
  else
    let x_intersection :=
      (xm * (xn - xo) ^ 2 + (xn * (ym - yo) - xo * (ym - yn)) * (yn - yo)) / denominator
    if xn - xo = 0 then .error .zeroDivisionError
    else
      let m := (yn - yo) / (xn - xo)
      let y_intersection := m * (x_intersection - xo) + yo
      let x_diff := xm - x_intersection
      let y_diff := ym - y_intersection
      .ok (xm - 2 * x_diff, ym - 2 * y_diff)

/-- Claim C9 counterexample: for the vertical line through the two distinct
points `(0,0)` and `(0,1)`, `mirror_across_line` hits a division by zero (the
slope computation) even though `lineA ≠ lineB`; so it does not fail only in
the degenerate case `lineA = lineB`. -/
theorem c9_counterexample :
    mirror_across_line ((0:ℝ), (0:ℝ)) ((0:ℝ), (1:ℝ)) ((1:ℝ), (0:ℝ)) =
        .error .zeroDivisionError ∧
      ((0:ℝ), (0:ℝ)) ≠ ((0:ℝ), (1:ℝ)) := by
  constructor
  · simp only [mirror_across_line]
    norm_num
  · intro h
    have := congrArg Prod.snd h
    norm_num at this

/-- Claim C9 (amended): `mirror_across_line` divides by zero exactly when the
two line points share the same x-coordinate (a vertical or degenerate line):
when the x-coordinates coincide it fails with a division-by-zero error, and
when they differ it succeeds and the result is the true reflection of `point`
across the line through `lineA` and `lineB` (the displacement to the result is
perpendicular to the line, and the midpoint of `point` and the result lies on
the line). -/
theorem c9_mirror_across_line_characterisation (p1 p2 pt : Point) :
    (p2.1 = p1.1 → mirror_across_line p1 p2 pt = .error .zeroDivisionError) ∧
    (p2.1 ≠ p1.1 → ∃ q : Point,
      mirror_across_line p1 p2 pt = .ok q ∧
      (q.1 - pt.1) * (p2.1 - p1.1) + (q.2 - pt.2) * (p2.2 - p1.2) = 0 ∧
      ((q.1 + pt.1) / 2 - p1.1) * (p2.2 - p1.2)
        - ((q.2 + pt.2) / 2 - p1.2) * (p2.1 - p1.1) = 0) := by
  constructor
  · intro hx
    by_cases hy : p2.2 = p1.2
    · have hden : p2.1 ^ 2 - 2 * p2.1 * p1.1 + p1.1 ^ 2 + (p2.2 - p1.2) ^ 2 = 0 := by
        rw [hx, hy]; ring
      simp only [mirror_across_line]
      rw [if_pos hden]
    · have hden : p2.1 ^ 2 - 2 * p2.1 * p1.1 + p1.1 ^ 2 + (p2.2 - p1.2) ^ 2 ≠ 0 := by
        have h1 : p2.1 ^ 2 - 2 * p2.1 * p1.1 + p1.1 ^ 2 + (p2.2 - p1.2) ^ 2
            = (p2.1 - p1.1) ^ 2 + (p2.2 - p1.2) ^ 2 := by ring
        rw [h1]
        have h2 : (p2.2 - p1.2) ^ 2 > 0 :=
          lt_of_le_of_ne (sq_nonneg _) (Ne.symm (pow_ne_zero 2 (sub_ne_zero.mpr hy)))
        positivity
      simp only [mirror_across_line]
      rw [if_neg hden, if_pos (by rw [hx]; ring)]
  · intro hx
    have hxne : p2.1 - p1.1 ≠ 0 := sub_ne_zero.mpr hx
    have hden : p2.1 ^ 2 - 2 * p2.1 * p1.1 + p1.1 ^ 2 + (p2.2 - p1.2) ^ 2 ≠ 0 := by
      have h1 : p2.1 ^ 2 - 2 * p2.1 * p1.1 + p1.1 ^ 2 + (p2.2 - p1.2) ^ 2
          = (p2.1 - p1.1) ^ 2 + (p2.2 - p1.2) ^ 2 := by ring
      rw [h1]
      have h2 : (p2.1 - p1.1) ^ 2 > 0 :=
        lt_of_le_of_ne (sq_nonneg _) (Ne.symm (pow_ne_zero 2 hxne))
      positivity
    simp only [mirror_across_line]
    rw [if_neg hden, if_neg hxne]
    refine ⟨_, rfl, ?_, ?_⟩
    · field_simp
      ring
    · field_simp
      ring

/-- Claim C9 witness: the characterisation applied to the line through `(0,0)`
and `(1,0)` (distinct x-coordinates) and the point `(0,1)`: the call succeeds
and returns the reflection, with the stated perpendicularity and midpoint
properties. -/
theorem c9_witness :
    ∃ q : Point,
      mirror_across_line ((0:ℝ), (0:ℝ)) ((1:ℝ), (0:ℝ)) ((0:ℝ), (1:ℝ)) = .ok q ∧
      (q.1 - 0) * ((1:ℝ) - 0) + (q.2 - 1) * ((0:ℝ) - 0) = 0 ∧
      ((q.1 + 0) / 2 - 0) * ((0:ℝ) - 0) - ((q.2 + 1) / 2 - 0) * ((1:ℝ) - 0) = 0 :=
  (c9_mirror_across_line_characterisation ((0:ℝ), (0:ℝ)) ((1:ℝ), (0:ℝ))
    ((0:ℝ), (1:ℝ))).2 (by norm_num)

/-- `get_arc_length` of the source (lines 261-265): the circle circumference
times the swept fraction, in absolute value. -/
def get_arc_length (angle_range radius : ℝ) : ℝ :=
  |radius * 2 * π * (angle_range / (2 * π))|

/-- `get_angle_interval` of the source (lines 267-273): `points_count` is
`math.floor(arc_length * resolution)` and the interval is
`angle_range / points_count` when that count is nonzero. -/
def get_angle_interval (angle_range arc_length resolution : ℝ) : ℝ :=
  if ⌊arc_length * resolution⌋ ≠ 0 then
    angle_range / ((⌊arc_length * resolution⌋ : ℤ) : ℝ)
  else angle_range

/-- The `while abs(current_additional_angle) < abs(angle_range)` sampling loop
of `interpolate_all_curves` (source lines 728-734), emitting the sampled points
in generation order.  When `interval = 0` while the guard holds, the source
loops forever; that configuration is unreachable from the source's call sites
(there `interval = 0` forces `current = angle_range`), and the recursion
returns `[]` there. -/
def interp_loop (centre : Point) (r first_angle interval angle_range current : ℝ) :
    List Point :=
  if h : |current| < |angle_range| then
    if h0 : interval = 0 then []
    else
      (centre.1 + r * Real.cos (first_angle + current),
       centre.2 + r * Real.sin (first_angle + current)) ::
        interp_loop centre r first_angle interval angle_range (current + interval)
  else []
termination_by
  (⌈(|angle_range| - (if 0 < interval then current else -current)) / |interval|⌉).toNat
decreasing_by
  by_cases hi : 0 < interval
  · rw [if_pos hi, if_pos hi]
    have hane : |interval| = interval := abs_of_pos hi
    have key : (|angle_range| - (current + interval)) / |interval|
        = (|angle_range| - current) / |interval| - 1 := by
      rw [hane]
      field_simp
      ring
    have hpos : 0 < (|angle_range| - current) / |interval| := by
      apply div_pos
      · have := le_abs_self current
        linarith
      · exact abs_pos.mpr h0
    have hceil : 0 < ⌈(|angle_range| - current) / |interval|⌉ := Int.ceil_pos.mpr hpos
    rw [key, Int.ceil_sub_one]
    omega
  · have hi2 : interval < 0 := lt_of_le_of_ne (not_lt.mp hi) h0
    rw [if_neg hi, if_neg hi]
    have hane : |interval| = -interval := abs_of_neg hi2
    have key : (|angle_range| - -(current + interval)) / |interval|
        = (|angle_range| - -current) / |interval| - 1 := by
      have hne : -interval ≠ 0 := neg_ne_zero.mpr h0
      rw [hane]
      field_simp
      ring
    have hpos : 0 < (|angle_range| - -current) / |interval| := by
      apply div_pos
      · have := neg_le_abs current
        linarith
      · exact abs_pos.mpr h0
    have hceil : 0 < ⌈(|angle_range| - -current) / |interval|⌉ := Int.ceil_pos.mpr hpos
    rw [key, Int.ceil_sub_one]
    omega

/-- The per-curve sampling pipeline of `interpolate_all_curves` (source lines
719-734): arc length from the angle range, angle interval from the resolution,
then the sampling loop started at `current_additional_angle = angle_interval`. -/
def curve_samples (centre : Point) (r first_angle angle_range resolution : ℝ) :
    List Point :=
  let arc_length := get_arc_length angle_range r
  let angle_interval := get_angle_interval angle_range arc_length resolution
  interp_loop centre r first_angle angle_interval angle_range angle_interval

lemma interp_loop_guard_lt {range : ℝ} (hrange : range ≠ 0) {k n : ℕ} (hn : 0 < n)
    (hkn : k < n) : |(k:ℝ) * (range / (n:ℝ))| < |range| := by
  have hnR : (0:ℝ) < (n:ℝ) := by exact_mod_cast hn
  have habs : |(k:ℝ) * (range / (n:ℝ))| = (k:ℝ) * |range| / (n:ℝ) := by
    rw [abs_mul, abs_div, Nat.abs_cast, Nat.abs_cast, mul_div_assoc]
  rw [habs, div_lt_iff hnR]
  have hrpos : 0 < |range| := abs_pos.mpr hrange
  have hkR : (k:ℝ) < (n:ℝ) := by exact_mod_cast hkn
  nlinarith

lemma interp_loop_eq_map (centre : Point) (r first_angle range : ℝ) (n : ℕ)
    (hn : 0 < n) (hrange : range ≠ 0) :
    ∀ d k : ℕ, k + d = n → 1 ≤ k →
      interp_loop centre r first_angle (range / (n:ℝ)) range ((k:ℝ) * (range / (n:ℝ))) =
        (List.range d).map (fun j =>
          (centre.1 + r * Real.cos (first_angle + (((k + j : ℕ)):ℝ) * (range / (n:ℝ))),
           centre.2 + r * Real.sin (first_angle + (((k + j : ℕ)):ℝ) * (range / (n:ℝ))))) := by
  intro d
  induction d with
  | zero =>
    intro k hk _
    have hkn : k = n := by omega
    subst hkn
    have hnR : ((k:ℝ)) ≠ 0 := by
      have : (0:ℝ) < (k:ℝ) := by exact_mod_cast hn
      linarith
    have harg : (k:ℝ) * (range / (k:ℝ)) = range := by
      field_simp
    rw [interp_loop, dif_neg]
    · simp
    · rw [harg]
      exact lt_irrefl _
  | succ d ih =>
    intro k hk hk1
    have hkn : k < n := by omega
    have hguard := interp_loop_guard_lt hrange hn hkn
    have hnR : ((n:ℝ)) ≠ 0 := by
      have : (0:ℝ) < (n:ℝ) := by exact_mod_cast hn
      linarith
    have hint0 : range / (n:ℝ) ≠ 0 := div_ne_zero hrange hnR
    rw [interp_loop, dif_pos hguard, dif_neg hint0]
    have harg : (k:ℝ) * (range / (n:ℝ)) + range / (n:ℝ)
        = (((k + 1 : ℕ)):ℝ) * (range / (n:ℝ)) := by
      push_cast
      ring
    rw [harg, ih (k + 1) (by omega) (by omega)]
    rw [List.range_succ_eq_map, List.map_cons, List.map_map]
    refine congrArg₂ List.cons ?_ ?_
    · norm_num
    · apply List.map_congr_left
      intro j _
      have hjk : k + 1 + j = k + Nat.succ j := by omega
      simp only [Function.comp_apply]
      rw [hjk]

lemma distance_centre_sample (centre : Point) (r θ : ℝ) (hr : 0 ≤ r) :
    distance_between_two_points
      (centre.1 + r * Real.cos θ, centre.2 + r * Real.sin θ) centre = r := by
  simp only [distance_between_two_points]
  have key : (centre.2 + r * Real.sin θ - centre.2) ^ 2
        + (centre.1 + r * Real.cos θ - centre.1) ^ 2
      = r ^ 2 * (Real.sin θ ^ 2 + Real.cos θ ^ 2) := by ring
  rw [key, Real.sin_sq_add_cos_sq, mul_one, Real.sqrt_sq hr]

/-- Claim C6: for a curve with entry angle `first_angle`, signed sweep
`angle_range`, radius `r ≥ 0` and resolution `≥ 0`, let
`sampleCount = ⌊arcLength * resolution⌋`.  If the count is `0` (in particular
whenever `resolution = 0`) the interpolator inserts no interior samples;
otherwise it inserts exactly `sampleCount - 1` interior points, the `j`-th at
angular offset `(j+1) * (angle_range / sampleCount)` from the entry angle,
each offset strictly smaller in magnitude than `|angle_range|` (so sampling
stops strictly before the exit angle), and every sample lies at distance `r`
(within `1e-6`) from the arc's centre. -/
theorem c6_interpolation_sample_counts (centre : Point)
    (r first_angle angle_range resolution : ℝ)
    (hr : 0 ≤ r) (hres : 0 ≤ resolution) :
    (⌊get_arc_length angle_range r * resolution⌋ = 0 →
      curve_samples centre r first_angle angle_range resolution = []) ∧
    (∀ n : ℕ, ⌊get_arc_length angle_range r * resolution⌋ = (n:ℤ) → 0 < n →
      (curve_samples centre r first_angle angle_range resolution).length = n - 1 ∧
      ∀ j : ℕ, j < n - 1 →
        (curve_samples centre r first_angle angle_range resolution)[j]? =
          some (centre.1 + r * Real.cos (first_angle + ((j:ℝ) + 1) * (angle_range / (n:ℝ))),
                centre.2 + r * Real.sin (first_angle + ((j:ℝ) + 1) * (angle_range / (n:ℝ)))) ∧
        |((j:ℝ) + 1) * (angle_range / (n:ℝ))| < |angle_range| ∧
        |distance_between_two_points
            (centre.1 + r * Real.cos (first_angle + ((j:ℝ) + 1) * (angle_range / (n:ℝ))),
             centre.2 + r * Real.sin (first_angle + ((j:ℝ) + 1) * (angle_range / (n:ℝ))))
            centre - r| ≤ 1e-6) := by
  constructor
  · intro h0
    have hiv : get_angle_interval angle_range (get_arc_length angle_range r) resolution
        = angle_range := by
      rw [get_angle_interval, if_neg (by rw [Ne]; exact not_not_intro h0)]
    simp only [curve_samples]
    rw [hiv, interp_loop, dif_neg (lt_irrefl _)]
  · intro n hn hnpos
    have hnne : (⌊get_arc_length angle_range r * resolution⌋ : ℤ) ≠ 0 := by
      rw [hn]
      exact_mod_cast hnpos.ne'
    have hrange : angle_range ≠ 0 := by
      intro h0
      rw [h0] at hn
      simp [get_arc_length] at hn
      omega
    have hsamples : curve_samples centre r first_angle angle_range resolution =
        (List.range (n - 1)).map (fun j =>
          (centre.1 + r * Real.cos (first_angle + (((1 + j : ℕ)):ℝ) * (angle_range / (n:ℝ))),
           centre.2 + r * Real.sin (first_angle + (((1 + j : ℕ)):ℝ) * (angle_range / (n:ℝ))))) := by
      have hiv : get_angle_interval angle_range (get_arc_length angle_range r) resolution
          = angle_range / ((n:ℕ):ℝ) := by
        rw [get_angle_interval, if_pos hnne, hn]
        push_cast
        ring
      simp only [curve_samples]
      rw [hiv]
      have honemul : angle_range / ((n:ℕ):ℝ) = ((1:ℕ):ℝ) * (angle_range / ((n:ℕ):ℝ)) := by
        norm_num
      nth_rewrite 2 [honemul]
      exact interp_loop_eq_map centre r first_angle angle_range n hnpos hrange (n - 1) 1
        (by omega) (le_refl 1)
    rw [hsamples]
    constructor
    · rw [List.length_map, List.length_range]
    · intro j hj
      have hget : ((List.range (n - 1)).map (fun j =>
          (centre.1 + r * Real.cos (first_angle + (((1 + j : ℕ)):ℝ) * (angle_range / (n:ℝ))),
           centre.2 + r * Real.sin (first_angle + (((1 + j : ℕ)):ℝ) * (angle_range / (n:ℝ))))))[j]? =
          some (centre.1 + r * Real.cos (first_angle + (((1 + j : ℕ)):ℝ) * (angle_range / (n:ℝ))),
                centre.2 + r * Real.sin (first_angle + (((1 + j : ℕ)):ℝ) * (angle_range / (n:ℝ)))) := by
        rw [List.getElem?_map, List.getElem?_range hj]
        rfl
      have hcast : (((1 + j : ℕ)):ℝ) = (j:ℝ) + 1 := by push_cast; ring
      rw [hcast] at hget
      refine ⟨hget, ?_, ?_⟩
      · have := interp_loop_guard_lt hrange hnpos (k := 1 + j) (by omega)
        rw [hcast] at this
        exact this
      · rw [distance_centre_sample centre r _ hr]
        norm_num

/-- Claim C6 witness: the sample-count theorem applied at centre `(0,0)`,
radius `1`, entry angle `0`, sweep `π` and resolution `0`: the sample count
`⌊arcLength * 0⌋` is `0`, so no interior samples are inserted. -/
theorem c6_witness :
    curve_samples ((0:ℝ), (0:ℝ)) 1 0 π 0 = [] :=
  (c6_interpolation_sample_counts ((0:ℝ), (0:ℝ)) 1 0 π 0 (by norm_num)
    (le_refl 0)).1 (by rw [mul_zero]; exact Int.floor_zero)

/-- `get_circle_direction` of the source (lines 275-301): travel is classified
clockwise when the angle perpendicular to the centre-to-current radius agrees
with the previous-to-current heading within `error`. -/
def get_circle_direction (previous_waypoint current_waypoint centre_point : Point)
    (error : ℝ) : Bool :=
  let inv_centre_to_current_angle :=
    atan2 (-(current_waypoint.1 - centre_point.1)) (current_waypoint.2 - centre_point.2)
  let previous_to_current_angle :=
    atan2 (current_waypoint.2 - previous_waypoint.2)
      (current_waypoint.1 - previous_waypoint.1)
  if |inv_centre_to_current_angle - previous_to_current_angle| ≤ error then true else false

/-- Python's `list.insert(n, a)`: inserts before position `n`, appending when
`n` is beyond the end (Lean's `List.insertNth` would instead drop the element
there). -/
def py_insert {α : Type} (l : List α) (n : ℕ) (a : α) : List α :=
  if l.length < n then l ++ [a] else List.insertIdx n a l

/-- The first loop of `interpolate_all_curves` (source lines 708-737): walk
the centre-point list, keeping the running `waypoint_index_position`, and for
every `"curve"` descriptor build the injection section
`[(position + 1, sample), ...]` for its sampled points.  The source builds
each section with `insert(0, ...)` — reversed generation order — which is the
`samples.reverse` below, and collects the sections in traversal order. -/
def curve_injection_sections (waypoints : List Point) (r resolution : ℝ) :
    List CentreData → ℕ → Except SplineErr (List (List (ℕ × Point)))
  | [], _ => .ok []
  | centre_point_data :: rest, waypoint_index_position =>
    match centre_point_data.1 with
    | CentreTag.straight =>
      curve_injection_sections waypoints r resolution rest (waypoint_index_position + 1)
    | CentreTag.curve =>
      match waypoints[waypoint_index_position]?, waypoints[waypoint_index_position + 1]?,
          waypoints[waypoint_index_position - 1]? with
      | some corresponding0, some corresponding1, some prev_waypoint =>
        let centre_point := centre_point_data.2
        let first_angle :=
          atan2 (corresponding0.2 - centre_point.2) (corresponding0.1 - centre_point.1)
        let second_angle :=
          atan2 (corresponding1.2 - centre_point.2) (corresponding1.1 - centre_point.1)
        let is_clockwise := get_circle_direction prev_waypoint corresponding0 centre_point 1e-5
        let angle_range := get_angle_range first_angle second_angle is_clockwise
        let samples := curve_samples centre_point r first_angle angle_range resolution
        let injection_section := samples.reverse.map
          (fun sample_point => (waypoint_index_position + 1, sample_point))
        match curve_injection_sections waypoints r resolution rest
            (waypoint_index_position + 2) with
        | .ok sections => .ok (injection_section :: sections)
        | .error e => .error e
      | _, _, _ => .error .indexError

/-- `interpolate_all_curves` of the source (lines 698-743): compute the
injection matrix, reverse it, then insert every `(index, point)` pair into a
copy of the waypoint list. -/
def interpolate_all_curves (waypoints : List Point) (centre_points : List CentreData)
    (turn_radius resolution : ℝ) : Except SplineErr (List Point) :=
  match curve_injection_sections waypoints turn_radius resolution centre_points 1 with
  | .error e => .error e
  | .ok output_injection_matrix =>
    .ok (output_injection_matrix.reverse.foldl
      (fun output injection_section =>
        injection_section.foldl
          (fun out sample_point => py_insert out sample_point.1 sample_point.2) output)
      waypoints)

lemma sublist_insertIdx_self {α : Type} (a : α) :
    ∀ (n : ℕ) (l : List α), l.Sublist (List.insertIdx n a l)
  | 0, l => List.sublist_cons_self a l
  | n + 1, [] => by simp
  | n + 1, x :: xs => by
    rw [List.insertIdx_succ_cons]
    exact List.Sublist.cons₂ x (sublist_insertIdx_self a n xs)

lemma sublist_py_insert {α : Type} (l : List α) (n : ℕ) (a : α) :
    l.Sublist (py_insert l n a) := by
  rw [py_insert]
  split_ifs
  · exact List.sublist_append_left l [a]
  · exact sublist_insertIdx_self a n l

lemma sublist_foldl_section {α : Type} :
    ∀ (injection_section : List (ℕ × α)) (l : List α),
      l.Sublist (injection_section.foldl
        (fun out sample_point => py_insert out sample_point.1 sample_point.2) l)
  | [], _ => List.Sublist.refl _
  | p :: rest, l => by
    rw [List.foldl_cons]
    exact (sublist_py_insert l p.1 p.2).trans (sublist_foldl_section rest _)

lemma sublist_foldl_matrix {α : Type} :
    ∀ (matrix : List (List (ℕ × α))) (l : List α),
      l.Sublist (matrix.foldl
        (fun output injection_section => injection_section.foldl
          (fun out sample_point => py_insert out sample_point.1 sample_point.2) output) l)
  | [], _ => List.Sublist.refl _
  | s :: rest, l => by
    rw [List.foldl_cons]
    exact (sublist_foldl_section s l).trans (sublist_foldl_matrix rest _)

/-- Claim C10: `interpolate_all_curves` only inserts points — whenever it
succeeds, the input waypoint list is a sublist of the returned list (every
input point appears unchanged, in its original relative order; arc samples are
only added in between). -/
theorem c10_interpolate_only_inserts (waypoints : List Point)
    (centre_points : List CentreData) (turn_radius resolution : ℝ) (out : List Point)
    (h : interpolate_all_curves waypoints centre_points turn_radius resolution = .ok out) :
    waypoints.Sublist out := by
  simp only [interpolate_all_curves] at h
  split at h
  · exact absurd h (by simp)
  · simp only [Except.ok.injEq] at h
    rw [← h]
    exact sublist_foldl_matrix _ _

/-- Claim C10 witness: for the two-waypoint list with no curve descriptors,
`interpolate_all_curves` succeeds and returns the waypoints unchanged, which
are a sublist of themselves. -/
theorem c10_witness :
    [((0:ℝ), (0:ℝ)), ((1:ℝ), (1:ℝ))].Sublist [((0:ℝ), (0:ℝ)), ((1:ℝ), (1:ℝ))] :=
  c10_interpolate_only_inserts [((0:ℝ), (0:ℝ)), ((1:ℝ), (1:ℝ))] [] 1 1
    [((0:ℝ), (0:ℝ)), ((1:ℝ), (1:ℝ))] rfl

/-- Python's `round(x, 8)` (source lines 448-453): round to 8 decimal places. -/
def round8 (x : ℝ) : ℝ := ((round (x * 10 ^ 8) : ℤ) : ℝ) / 10 ^ 8

/-- `find_dual_perpendicular_angle` of the source (lines 326-356), with the
implicit failure modes of Python made explicit: division by a zero
`arcsin_denominator` and `math.asin` outside `[-1, 1]`. -/
def find_dual_perpendicular_angle (radius : ℝ) (origin point : Point) (n : ℕ) :
    Except SplineErr ℝ :=
  let r := radius
  let origin_x := origin.1
  let origin_y := origin.2
  let next_point_x := point.1
  let next_point_y := point.2
  let arctan_numerator := next_point_y - origin_y
  let arctan_denominator := next_point_x - origin_x
  let arcsin_numerator := r
  let arcsin_denominator := Real.sqrt (next_point_x ^ 2 - 2 * next_point_x * origin_x
    + next_point_y ^ 2 - 2 * next_point_y * origin_y + origin_x ^ 2 + origin_y ^ 2)
  if arcsin_denominator = 0 then .error .zeroDivisionError
  else
    let arcsin_stuff := arcsin_numerator / arcsin_denominator
    if 1 < |arcsin_stuff| then .error .mathDomainError
    else
      let numerator := -(2 * Real.arcsin arcsin_stuff
        - 2 * atan2 arctan_numerator arctan_denominator
        + (sign (next_point_x - origin_x) - 2 * (2 * (n:ℝ) + 1)) * π)
      let denominator := (2:ℝ)
      .ok (numerator / denominator)

/-- `get_closest_centre_point` of the source (lines 358-378). -/
def get_closest_centre_point (previous_waypoint current_waypoint next_waypoint : Point)
    (r : ℝ) : Point :=
  let inverse_gradient_numerator := current_waypoint.1 - previous_waypoint.1
  let inverse_gradient_denominator := current_waypoint.2 - previous_waypoint.2
  let gradient_angle := atan2 (-inverse_gradient_numerator) inverse_gradient_denominator
  let first_point := (current_waypoint.1 + r * Real.cos gradient_angle,
                      current_waypoint.2 + r * Real.sin gradient_angle)
  let second_point := (current_waypoint.1 + r * Real.cos (gradient_angle + π),
                       current_waypoint.2 + r * Real.sin (gradient_angle + π))
  let first_point_dist := Real.sqrt ((first_point.1 - next_waypoint.1) ^ 2
    + (first_point.2 - next_waypoint.2) ^ 2)
  let second_point_dist := Real.sqrt ((second_point.1 - next_waypoint.1) ^ 2
    + (second_point.2 - next_waypoint.2) ^ 2)
  if first_point_dist ≤ second_point_dist then first_point else second_point

/-- The quadrant correction and range check of `calculate_curve_exit` (source
lines 420-428): add `π` and re-normalise when `next.x < centre.x`, then raise
`ValueError("Constrain to PI error.")` when the angle is outside `[-π, π]`. -/
def constrain_exit_angle (centre_point next_waypoint : Point) (exit_angle : ℝ) :
    Except SplineErr ℝ :=
  let corrected :=
    if next_waypoint.1 < centre_point.1 then constrain_pi (exit_angle + π) else exit_angle
  if corrected > π ∨ corrected < -π then .error .constrainPiError
  else .ok corrected

/-- The twelve-branch case analysis of `calculate_curve_exit` (source lines
465-696), as a function of the clockwise flag, the three rounded angles, and
the two rounded candidate points; `none` is the
`"NO CASE FOUND: MAJOR BUG"` fall-through. -/
def exit_case_table (clockwise : Bool) (cur ex mir : ℝ) (exit_point mirror_point : Point) :
    Option Point :=
  if clockwise then
    if cur > 0 then
      if ex < 0 ∧ mir < 0 then
        (if ex > mir then some exit_point else some mirror_point)
      else if (ex < cur ∧ ex > 0 ∧ mir < 0) ∨ (mir < cur ∧ mir > 0 ∧ ex < 0) then
        (if ex > mir then some exit_point else some mirror_point)
      else if ex < cur ∧ ex > 0 ∧ mir < cur ∧ mir > 0 then
        (if ex > mir then some exit_point else some mirror_point)
      else if (ex > cur ∧ mir < cur ∧ mir > 0) ∨ (mir > cur ∧ ex < cur ∧ ex > 0) then
        (if ex > mir then some mirror_point else some exit_point)
      else if ex > cur ∧ mir > cur then
        (if ex > mir then some exit_point else some mirror_point)
      else if (ex > cur ∧ mir < 0) ∨ (mir > cur ∧ ex < 0) then
        (if ex > mir then some mirror_point else some exit_point)
      else none
    else
      if ex < cur ∧ mir < cur then
        (if ex > mir then some exit_point else some mirror_point)
      else if (ex < cur ∧ mir < 0 ∧ mir > cur) ∨ (mir < cur ∧ ex < 0 ∧ ex > cur) then
        (if ex > mir then some mirror_point else some exit_point)
      else if ex > cur ∧ ex < 0 ∧ mir > cur ∧ mir < 0 then
        (if ex > mir then some exit_point else some mirror_point)
      else if (ex > cur ∧ ex < 0 ∧ mir > 0) ∨ (mir > cur ∧ mir < 0 ∧ ex > 0) then
        (if ex > mir then some exit_point else some mirror_point)
      else if ex > 0 ∧ mir > 0 then
        (if ex > mir then some exit_point else some mirror_point)
      else if (ex > 0 ∧ mir < cur) ∨ (mir > 0 ∧ ex < cur) then
        (if ex > mir then some mirror_point else some exit_point)
      else none
  else
    if cur > 0 then
      if ex < 0 ∧ mir < 0 then
        (if ex < mir then some exit_point else some mirror_point)
      else if (ex < cur ∧ ex > 0 ∧ mir < 0) ∨ (mir < cur ∧ mir > 0 ∧ ex < 0) then
        (if ex < mir then some exit_point else some mirror_point)
      else if ex < cur ∧ ex > 0 ∧ mir < cur ∧ mir > 0 then
        (if ex < mir then some exit_point else some mirror_point)
      else if (ex > cur ∧ mir < cur ∧ mir > 0) ∨ (mir > cur ∧ ex < cur ∧ ex > 0) then
        (if ex < mir then some mirror_point else some exit_point)
      else if ex > cur ∧ mir > cur then
        (if ex < mir then some exit_point else some mirror_point)
      else if (ex > cur ∧ mir < 0) ∨ (mir > cur ∧ ex < 0) then
        (if ex < mir then some mirror_point else some exit_point)
      else none
    else
      if ex < cur ∧ mir < cur then
        (if ex < mir then some exit_point else some mirror_point)
      else if (ex < cur ∧ mir < 0 ∧ mir > cur) ∨ (mir < cur ∧ ex < 0 ∧ ex > cur) then
        (if ex < mir then some mirror_point else some exit_point)
      else if ex > cur ∧ ex < 0 ∧ mir > cur ∧ mir < 0 then
        (if ex < mir then some exit_point else some mirror_point)
      else if (ex > cur ∧ ex < 0 ∧ mir > 0) ∨ (mir > cur ∧ mir < 0 ∧ ex > 0) then
        (if ex < mir then some exit_point else some mirror_point)
      else if ex > 0 ∧ mir > 0 then
        (if ex < mir then some exit_point else some mirror_point)
      else if (ex > 0 ∧ mir < cur) ∨ (mir > 0 ∧ ex < cur) then
        (if ex < mir then some mirror_point else some exit_point)
      else none

/-- `calculate_curve_exit` of the source (lines 408-696): centre selection,
tangent-angle solve, quadrant correction and range check, candidate exit
point, mirror candidate, direction classification, rounding to 8 decimal
places, the two already-tangent early returns, and the case table. -/
def calculate_curve_exit (previous_waypoint current_waypoint next_waypoint : Point)
    (radius : ℝ) : Except SplineErr (Point × CentreData) :=
  let r := radius
  let centre_point := get_closest_centre_point previous_waypoint current_waypoint
    next_waypoint r
  match find_dual_perpendicular_angle r centre_point next_waypoint 0 with
  | .error e => .error e
  | .ok exit_angle0 =>
    match constrain_exit_angle centre_point next_waypoint exit_angle0 with
    | .error e => .error e
    | .ok exit_angle =>
      let exit_point := (centre_point.1 + r * Real.cos exit_angle,
                         centre_point.2 + r * Real.sin exit_angle)
      match mirror_across_line centre_point next_waypoint exit_point with
      | .error e => .error e
      | .ok exit_mirror_point =>
        let exit_mirror_angle := atan2 (exit_mirror_point.2 - centre_point.2)
          (exit_mirror_point.1 - centre_point.1)
        let current_point_angle := atan2 (current_waypoint.2 - centre_point.2)
          (current_waypoint.1 - centre_point.1)
        let clockwise := get_circle_direction previous_waypoint current_waypoint
          centre_point 1e-5
        let exit_angle_r := round8 exit_angle
        let exit_mirror_angle_r := round8 exit_mirror_angle
        let current_point_angle_r := round8 current_point_angle
        let exit_point_r := (round8 exit_point.1, round8 exit_point.2)
        let exit_mirror_point_r := (round8 exit_mirror_point.1, round8 exit_mirror_point.2)
        if current_point_angle_r = exit_angle_r then
          .ok (exit_point_r, (CentreTag.straight, centre_point))
        else if current_point_angle_r = exit_mirror_angle_r then
          .ok (exit_mirror_point_r, (CentreTag.straight, centre_point))
        else
          match exit_case_table clockwise current_point_angle_r exit_angle_r
              exit_mirror_angle_r exit_point_r exit_mirror_point_r with
          | some p => .ok (p, (CentreTag.curve, centre_point))
          | none => .error .noCaseFound

/-- `check_minimum_waypoint_radius` of the source (lines 136-151): raise at
the first consecutive pair closer together than the turn radius. -/
def check_minimum_waypoint_radius (waypoints : List Point) (turn_radius : ℝ) :
    Except SplineErr Unit :=
  match waypoints with
  | [] => .ok ()
  | [_] => .ok ()
  | current_waypoint :: next_waypoint :: rest =>
    if distance_between_two_points current_waypoint next_waypoint < turn_radius then
      .error .waypointsTooClose
    else check_minimum_waypoint_radius (next_waypoint :: rest) turn_radius

/-- The straight/curve loop of `generate_spline` (source lines 96-112):
`count` is the number of iterations left, `index` the current loop index,
`temp_waypoint_start` the chained start point; the accumulated output
waypoints and centre points ride along. -/
def spline_loop (waypoints : List Point) (turn_radius : ℝ) :
    ℕ → ℕ → Point → List Point → List CentreData →
      Except SplineErr (Point × List Point × List CentreData)
  | _, 0, temp_waypoint_start, out, cs => .ok (temp_waypoint_start, out, cs)
  | index, count + 1, temp_waypoint_start, out, cs =>
    match waypoints[index + 1]?, waypoints[index + 2]? with
    | some waypoint_end, some next_waypoint =>
      match calculate_curve_exit temp_waypoint_start waypoint_end next_waypoint
          turn_radius with
      | .ok (curve_exit, centre_point) =>
        spline_loop waypoints turn_radius (index + 1) count curve_exit
          (out ++ [temp_waypoint_start, waypoint_end]) (cs ++ [centre_point])
      | .error e => .error e
    | _, _ => .error .indexError

/-- Python's `output_waypoints[index - 1]` for the duplicate-removal loop
(source line 123): for `index = 0` this is `output_waypoints[-1]`, the last
element. -/
def py_prev_get (l : List Point) (index : ℕ) : Option Point :=
  if index = 0 then l.getLast? else l[index - 1]?

/-- One iteration of the duplicate-removal loop (source lines 121-125):
compare `output[index]` with `output[index - 1]` and pop `index` on equality. -/
def dedup_step (l : List Point) (index : ℕ) : List Point :=
  match l[index]?, py_prev_get l index with
  | some current_waypoint, some next_waypoint =>
    if current_waypoint = next_waypoint then l.eraseIdx index else l
  | _, _ => l

/-- The duplicate-removal loop over descending indices (source lines 119-125). -/
def dedup_go (l : List Point) : ℕ → List Point
  | 0 => dedup_step l 0
  | index + 1 => dedup_go (dedup_step l (index + 1)) index

/-- The consecutive-duplicate removal of `generate_spline` (source lines
118-125): iterate `dedup_step` for `index = len - 1` down to `0` (and do
nothing for an empty list, where Python's `range(0)` is empty). -/
def remove_consecutive_duplicates (l : List Point) : List Point :=
  match l.length with
  | 0 => l
  | len + 1 => dedup_go l len

/-- `generate_spline` of the source (lines 78-129), as a function of the
instance fields `_waypoints`, `_turn_radius` and `_resolution`: the
minimum-radius check, the straight/curve loop, the final straight, the
consecutive-duplicate removal and the curve interpolation. -/
def generate_spline (waypoints : List Point) (turn_radius resolution : ℝ) :
    Except SplineErr (List Point × List CentreData) :=
  match check_minimum_waypoint_radius waypoints turn_radius with
  | .error e => .error e
  | .ok _ =>
    match waypoints[0]? with
    | none => .error .indexError
    | some first_waypoint =>
      match spline_loop waypoints turn_radius 0 (waypoints.length - 2) first_waypoint
          [] [] with
      | .error e => .error e
      | .ok (temp_waypoint_start, output_waypoints, centre_points) =>
        match waypoints.getLast? with
        | none => .error .indexError
        | some last_waypoint =>
          let with_tail := output_waypoints ++ [temp_waypoint_start, last_waypoint]
          let deduped := remove_consecutive_duplicates with_tail
          match interpolate_all_curves deduped centre_points turn_radius resolution with
          | .error e => .error e
          | .ok final_waypoints => .ok (final_waypoints, centre_points)

lemma check_minimum_error_of_close (waypoints : List Point) (turn_radius : ℝ) :
    ∀ (i : ℕ) (a b : Point),
      waypoints[i]? = some a → waypoints[i + 1]? = some b →
      distance_between_two_points a b < turn_radius →
      check_minimum_waypoint_radius waypoints turn_radius = .error .waypointsTooClose := by
  induction waypoints with
  | nil => intro i a b ha _ _; simp at ha
  | cons x rest ih =>
    intro i a b ha hb hd
    match rest, i with
    | [], 0 => simp at hb
    | [], j + 1 => simp at ha
    | y :: rest2, 0 =>
      simp only [List.getElem?_cons_zero, List.getElem?_cons_succ,
        Option.some.injEq] at ha hb
      subst ha
      subst hb
      rw [check_minimum_waypoint_radius, if_pos hd]
    | y :: rest2, j + 1 =>
      simp only [List.getElem?_cons_succ] at ha
      rw [check_minimum_waypoint_radius]
      split_ifs
      · rfl
      · refine ih j a b ha ?_ hd
        rw [List.getElem?_cons_succ]
        simpa using hb

/-- Claim C3: whenever two consecutive input waypoints are at distance
strictly less than the turn radius, `generate_spline` fails with the
input-validation error `waypointsTooClose` (raised by the minimum-separation
check, which runs before any output segment is emitted). -/
theorem c3_min_separation_failure (waypoints : List Point)
    (turn_radius resolution : ℝ) (i : ℕ) (a b : Point)
    (ha : waypoints[i]? = some a) (hb : waypoints[i + 1]? = some b)
    (hd : distance_between_two_points a b < turn_radius) :
    generate_spline waypoints turn_radius resolution = .error .waypointsTooClose := by
  rw [generate_spline, check_minimum_error_of_close waypoints turn_radius i a b ha hb hd]

/-- Claim C3 witness: `generate_spline [[0,0],[0,0.5]]` with turn radius `1`
fails with the `waypointsTooClose` validation error (distance `0.5 < 1`). -/
theorem c3_witness :
    generate_spline [((0:ℝ), (0:ℝ)), ((0:ℝ), (0.5:ℝ))] 1 1 =
      .error .waypointsTooClose := by
  apply c3_min_separation_failure _ 1 1 0 ((0:ℝ), (0:ℝ)) ((0:ℝ), (0.5:ℝ)) rfl rfl
  simp only [distance_between_two_points]
  rw [show ((0:ℝ) - 0.5) ^ 2 + ((0:ℝ) - 0) ^ 2 = (0.5:ℝ) ^ 2 by norm_num,
    Real.sqrt_sq (by norm_num)]
  norm_num

lemma generate_spline_singleton (w : Point) (turn_radius resolution : ℝ) :
    generate_spline [w] turn_radius resolution = .ok ([], []) := by
  have hded : remove_consecutive_duplicates [w, w] = [] := by
    simp [remove_consecutive_duplicates, dedup_go, dedup_step, py_prev_get]
  simp [generate_spline, check_minimum_waypoint_radius, spline_loop, hded,
    interpolate_all_curves, curve_injection_sections]

/-- Claim C8 counterexample: `generate_spline` with the single waypoint
`[0, 0]` does NOT fail — it succeeds and returns an empty path — so calling
the generation operation with fewer than 2 waypoints does not produce an
input-validation error. -/
theorem c8_counterexample :
    generate_spline [((0:ℝ), (0:ℝ))] 1 1 = .ok ([], []) :=
  generate_spline_singleton ((0:ℝ), (0:ℝ)) 1 1

/-- Claim C8 (amended): `generate_spline` performs no fewer-than-2-waypoints
validation: with an empty waypoint list it fails with a list-index error
(raised at `self._waypoints[0]`, after the vacuous separation check), and with
exactly one waypoint it succeeds and returns an empty path and no segment
descriptors. -/
theorem c8_fewer_than_two_waypoints :
    (∀ turn_radius resolution : ℝ,
      generate_spline [] turn_radius resolution = .error .indexError) ∧
    (∀ (w : Point) (turn_radius resolution : ℝ),
      generate_spline [w] turn_radius resolution = .ok ([], [])) := by
  constructor
  · intro t r
    rfl
  · intro w t r
    exact generate_spline_singleton w t r

lemma find_dual_ok_bounds (radius : ℝ) (origin point : Point) (ea : ℝ)
    (h : find_dual_perpendicular_angle radius origin point 0 = .ok ea) :
    (point.1 < origin.1 → π < ea + π) ∧ (¬ point.1 < origin.1 → -π < ea) := by
  simp only [find_dual_perpendicular_angle] at h
  split_ifs at h with h1 h2
  simp only [Except.ok.injEq] at h
  have hA : -π < atan2 (point.2 - origin.2) (point.1 - origin.1) :=
    Complex.neg_pi_lt_arg _
  have hS := Real.arcsin_le_pi_div_two (radius / Real.sqrt (point.1 ^ 2
    - 2 * point.1 * origin.1 + point.2 ^ 2 - 2 * point.2 * origin.2
    + origin.1 ^ 2 + origin.2 ^ 2))
  have hπ : (0:ℝ) < π := Real.pi_pos
  constructor
  · intro hlt
    have hsign : sign (point.1 - origin.1) = -1 := by
      rw [sign, if_neg (by intro hc; linarith), if_pos (by linarith)]
    rw [← h, hsign]
    push_cast
    linarith
  · intro hge
    rcases lt_or_eq_of_le (not_lt.mp hge) with hgt | heq
    · have hsign : sign (point.1 - origin.1) = 1 := by
        rw [sign, if_pos (by linarith)]
      rw [← h, hsign]
      push_cast
      linarith
    · have hsign : sign (point.1 - origin.1) = 0 := by
        rw [sign, if_neg (by intro hc; linarith), if_neg (by intro hc; linarith)]
      rw [← h, hsign]
      push_cast
      linarith

/-- Claim C4: for any exit angle produced by the tangent solver (with `n = 0`,
as `calculate_curve_exit` calls it), the correction-and-check fragment of
`calculate_curve_exit` — add `π` and renormalise when `next.x < centre.x`,
then range-check — raises the fatal `constrainPiError` if and only if the
(possibly corrected) exit angle lies outside `(-π, π]`, and when it does not
raise it returns the corrected angle unchanged (no silent clamping). -/
theorem c4_constrain_raise_iff (centre_point next_waypoint : Point) (radius ea : ℝ)
    (h : find_dual_perpendicular_angle radius centre_point next_waypoint 0 = .ok ea) :
    (constrain_exit_angle centre_point next_waypoint ea = .error .constrainPiError ↔
      (if next_waypoint.1 < centre_point.1 then constrain_pi (ea + π) else ea)
        ∉ Set.Ioc (-π) π) ∧
    ∀ x, constrain_exit_angle centre_point next_waypoint ea = .ok x →
      x = (if next_waypoint.1 < centre_point.1 then constrain_pi (ea + π) else ea) := by
  obtain ⟨hb1, hb2⟩ := find_dual_ok_bounds radius centre_point next_waypoint ea h
  have hπ : (0:ℝ) < π := Real.pi_pos
  by_cases hb : next_waypoint.1 < centre_point.1
  · have hmem := constrain_pi_mem_Icc (ea + π)
    have hne : constrain_pi (ea + π) ≠ -π := by
      intro hc
      have := le_of_constrain_pi_eq_neg_pi _ hc
      have := hb1 hb
      linarith
    have hnoraise : ¬ (constrain_pi (ea + π) > π ∨ constrain_pi (ea + π) < -π) := by
      rintro (hc | hc)
      · exact absurd hmem.2 (not_le.mpr hc)
      · exact absurd hmem.1 (not_le.mpr hc)
    constructor
    · rw [constrain_exit_angle]
      simp only [if_pos hb]
      rw [if_neg hnoraise]
      constructor
      · intro hc
        exact absurd hc (by simp)
      · intro hc
        exfalso
        apply hc
        constructor
        · exact lt_of_le_of_ne hmem.1 (Ne.symm hne)
        · exact hmem.2
    · intro x hx
      rw [constrain_exit_angle] at hx
      simp only [if_pos hb] at hx
      rw [if_neg hnoraise] at hx
      simp only [Except.ok.injEq] at hx
      rw [← hx, if_pos hb]
  · have hgt := hb2 hb
    constructor
    · rw [constrain_exit_angle]
      simp only [if_neg hb]
      constructor
      · intro hc
        by_cases hraise : ea > π ∨ ea < -π
        · rcases hraise with hr | hr
          · intro hmem
            exact absurd hmem.2 (not_le.mpr hr)
          · exfalso
            linarith
        · rw [if_neg hraise] at hc
          exact absurd hc (by simp)
      · intro hc
        have hra : ea > π := by
          by_contra hno
          exact hc ⟨hgt, not_lt.mp hno⟩
        rw [if_pos (Or.inl hra)]
    · intro x hx
      rw [constrain_exit_angle] at hx
      simp only [if_neg hb] at hx
      by_cases hraise : ea > π ∨ ea < -π
      · rw [if_pos hraise] at hx
        exact absurd hx (by simp)
      · rw [if_neg hraise] at hx
        simp only [Except.ok.injEq] at hx
        rw [← hx, if_neg hb]

lemma sign_of_pos {x : ℝ} (hx : 0 < x) : sign x = 1 := if_pos hx

lemma sign_of_neg {x : ℝ} (hx : x < 0) : sign x = -1 := by
  rw [sign, if_neg (by linarith), if_pos hx]

lemma sign_zero_eq : sign 0 = 0 := by
  rw [sign, if_neg (lt_irrefl 0), if_neg (lt_irrefl 0)]

lemma complex_mk_eq_ofReal (x : ℝ) : (⟨x, 0⟩ : ℂ) = (x : ℂ) := by
  apply Complex.ext <;> simp

lemma atan2_zero_of_nonneg {x : ℝ} (hx : 0 ≤ x) : atan2 0 x = 0 := by
  rw [atan2, complex_mk_eq_ofReal]
  exact Complex.arg_ofReal_of_nonneg hx

lemma atan2_zero_of_neg {x : ℝ} (hx : x < 0) : atan2 0 x = π := by
  rw [atan2]
  exact Complex.arg_eq_pi_iff.mpr ⟨hx, rfl⟩

lemma atan2_pos_y_zero {y : ℝ} (hy : 0 < y) : atan2 y 0 = π / 2 := by
  rw [atan2]
  exact Complex.arg_eq_pi_div_two_iff.mpr ⟨rfl, hy⟩

lemma atan2_neg_y_zero {y : ℝ} (hy : y < 0) : atan2 y 0 = -(π / 2) := by
  rw [atan2]
  exact Complex.arg_eq_neg_pi_div_two_iff.mpr ⟨rfl, hy⟩

lemma sqrt_four : Real.sqrt 4 = 2 := by
  rw [show (4:ℝ) = 2 ^ 2 by norm_num, Real.sqrt_sq (by norm_num : (0:ℝ) ≤ 2)]

lemma find_dual_c4_eval :
    find_dual_perpendicular_angle 2 ((0:ℝ), (0:ℝ)) ((2:ℝ), (0:ℝ)) 0 = .ok 0 := by
  simp only [find_dual_perpendicular_angle]
  norm_num [sqrt_four, Real.arcsin_one, atan2_zero_of_nonneg, sign_of_pos]
  ring

/-- Claim C4 witness: the raise-iff theorem applied to centre `(0,0)`, next
waypoint `(2,0)`, radius `2` — there the solver returns exit angle `0`, no
correction applies, and no error is raised since `0 ∈ (-π, π]`. -/
theorem c4_witness :
    (constrain_exit_angle ((0:ℝ), (0:ℝ)) ((2:ℝ), (0:ℝ)) 0 = .error .constrainPiError ↔
      (if ((2:ℝ), (0:ℝ)).1 < ((0:ℝ), (0:ℝ)).1 then constrain_pi ((0:ℝ) + π) else (0:ℝ))
        ∉ Set.Ioc (-π) π) ∧
    ∀ x, constrain_exit_angle ((0:ℝ), (0:ℝ)) ((2:ℝ), (0:ℝ)) 0 = .ok x →
      x = (if ((2:ℝ), (0:ℝ)).1 < ((0:ℝ), (0:ℝ)).1 then constrain_pi ((0:ℝ) + π)
           else (0:ℝ)) :=
  c4_constrain_raise_iff ((0:ℝ), (0:ℝ)) ((2:ℝ), (0:ℝ)) 2 0 find_dual_c4_eval

lemma sqrt_nine : Real.sqrt 9 = 3 := by
  rw [show (9:ℝ) = 3 ^ 2 by norm_num, Real.sqrt_sq (by norm_num : (0:ℝ) ≤ 3)]

lemma sqrt_sixteen : Real.sqrt 16 = 4 := by
  rw [show (16:ℝ) = 4 ^ 2 by norm_num, Real.sqrt_sq (by norm_num : (0:ℝ) ≤ 4)]

lemma arcsin_half : Real.arcsin (1 / 2) = π / 6 := by
  rw [← Real.sin_pi_div_six]
  exact Real.arcsin_sin (by linarith [Real.pi_pos]) (by linarith [Real.pi_pos])

lemma c1_centre_eval :
    get_closest_centre_point ((0:ℝ), (0:ℝ)) ((3:ℝ), (0:ℝ)) ((3:ℝ), (3:ℝ)) 1 =
      ((3:ℝ), (1:ℝ)) := by
  simp only [get_closest_centre_point]
  norm_num [atan2_neg_y_zero, Real.cos_neg, Real.sin_neg, Real.cos_pi_div_two,
    Real.sin_pi_div_two, show -(π / 2) + π = π / 2 from by ring, sqrt_sixteen, sqrt_four]

lemma c1_find_dual_eval :
    find_dual_perpendicular_angle 1 ((3:ℝ), (1:ℝ)) ((3:ℝ), (3:ℝ)) 0 =
      .ok (4 * π / 3) := by
  simp only [find_dual_perpendicular_angle]
  norm_num [sqrt_four, arcsin_half, atan2_pos_y_zero, sign_zero_eq]
  rw [if_neg (by rw [show |(1:ℝ)/2| = 1/2 from abs_of_pos (by norm_num)]; norm_num)]
  congr 1
  ring

lemma c1_constrain_eval :
    constrain_exit_angle ((3:ℝ), (1:ℝ)) ((3:ℝ), (3:ℝ)) (4 * π / 3) =
      .error .constrainPiError := by
  have hπ := Real.pi_pos
  rw [constrain_exit_angle]
  simp only
  rw [if_neg (lt_irrefl (3:ℝ)), if_pos (Or.inl (by linarith : 4 * π / 3 > π))]

lemma c1_curve_exit_eval :
    calculate_curve_exit ((0:ℝ), (0:ℝ)) ((3:ℝ), (0:ℝ)) ((3:ℝ), (3:ℝ)) 1 =
      .error .constrainPiError := by
  simp only [calculate_curve_exit, c1_centre_eval, c1_find_dual_eval, c1_constrain_eval]

lemma c1_check_eval :
    check_minimum_waypoint_radius [((0:ℝ), (0:ℝ)), ((3:ℝ), (0:ℝ)), ((3:ℝ), (3:ℝ))] 1 =
      .ok () := by
  rw [check_minimum_waypoint_radius]
  rw [if_neg (by norm_num [distance_between_two_points, sqrt_nine])]
  rw [check_minimum_waypoint_radius]
  rw [if_neg (by norm_num [distance_between_two_points, sqrt_nine])]
  rfl

/-- Claim C1: the spec's end-to-end scenario
`generate([[0,0],[3,0],[3,3]], turnRadius=1, resolution=0)` does NOT succeed
on the code: the tangent solver returns exit angle `4π/3` (the next waypoint
sits directly above the circle centre `(3,1)`, so `next.x < centre.x` fails
and no quadrant correction is applied), and `calculate_curve_exit` raises
`ValueError("Constrain to PI error.")`, which aborts the generation. -/
theorem c1_end_to_end_scenario_raises :
    generate_spline [((0:ℝ), (0:ℝ)), ((3:ℝ), (0:ℝ)), ((3:ℝ), (3:ℝ))] 1 0 =
      .error .constrainPiError := by
  rw [generate_spline, c1_check_eval]
  simp only [List.getElem?_cons_zero, List.length_cons, List.length_nil]
  rw [show (0 + 1 + 1 + 1 - 2 : ℕ) = 1 from rfl]
  rw [spline_loop]
  simp only [List.getElem?_cons_succ, List.getElem?_cons_zero, c1_curve_exit_eval]

lemma one_lt_sqrt_five : (1:ℝ) < Real.sqrt 5 := by
  have h := Real.sqrt_lt_sqrt (by norm_num : (0:ℝ) ≤ 1) (by norm_num : (1:ℝ) < 5)
  rwa [Real.sqrt_one] at h

lemma c2_centre_eval :
    get_closest_centre_point ((-1:ℝ), (0:ℝ)) ((0:ℝ), (0:ℝ)) ((1:ℝ), (1:ℝ)) 1 =
      ((0:ℝ), (1:ℝ)) := by
  simp only [get_closest_centre_point]
  norm_num [atan2_neg_y_zero, Real.cos_neg, Real.sin_neg, Real.cos_pi_div_two,
    Real.sin_pi_div_two, show -(π / 2) + π = π / 2 from by ring, Real.sqrt_one,
    not_le.mpr one_lt_sqrt_five]

lemma c2_find_dual_eval :
    find_dual_perpendicular_angle 1 ((0:ℝ), (1:ℝ)) ((1:ℝ), (1:ℝ)) 0 = .ok 0 := by
  simp only [find_dual_perpendicular_angle]
  norm_num [Real.sqrt_one, Real.arcsin_one, atan2_zero_of_nonneg, sign_of_pos]
  ring

lemma c2_constrain_eval :
    constrain_exit_angle ((0:ℝ), (1:ℝ)) ((1:ℝ), (1:ℝ)) 0 = .ok 0 := by
  have hπ := Real.pi_pos
  rw [constrain_exit_angle]
  simp only
  rw [if_neg (by norm_num : ¬ (1:ℝ) < 0),
    if_neg (by rintro (h | h) <;> linarith)]

lemma c2_mirror_eval :
    mirror_across_line ((0:ℝ), (1:ℝ)) ((1:ℝ), (1:ℝ)) ((1:ℝ), (1:ℝ)) =
      .ok ((1:ℝ), (1:ℝ)) := by
  simp only [mirror_across_line]
  norm_num

lemma c2_clockwise_eval (e : ℝ) (he : e ≤ 1) :
    get_circle_direction ((-1:ℝ), (0:ℝ)) ((0:ℝ), (0:ℝ)) ((0:ℝ), (1:ℝ)) e = false := by
  have hπ3 := Real.pi_gt_three
  simp only [get_circle_direction]
  norm_num [atan2_zero_of_neg, atan2_zero_of_nonneg]
  rw [abs_of_pos Real.pi_pos]
  linarith

lemma round8_zero : round8 0 = 0 := by
  simp [round8]

lemma round8_neg_pi_div_two_neg : round8 (-(π / 2)) < 0 := by
  have hπ3 := Real.pi_gt_three
  have habs := abs_sub_round ((-(π / 2)) * 10 ^ 8)
  have hle : ((round ((-(π / 2)) * 10 ^ 8) : ℤ) : ℝ) ≤ (-(π / 2)) * 10 ^ 8 + 1 / 2 := by
    have h2 := abs_le.mp habs
    linarith [h2.1, h2.2]
  rw [round8]
  apply div_neg_of_neg_of_pos
  · have : (-(π / 2)) * 10 ^ 8 < -(3 / 2) * 10 ^ 8 := by nlinarith
    linarith
  · norm_num

lemma exit_case_table_zero_candidates (b : Bool) (c : ℝ) (pE pM : Point) (hc : c < 0) :
    exit_case_table b c 0 0 pE pM = none := by
  cases b <;> simp [exit_case_table, hc, hc.not_lt]

/-- Claim C2 counterexample: for the waypoint triple
`(-1,0), (0,0), (1,1)` with radius `1`, `calculate_curve_exit` reaches the
direction-based case analysis (the rounded current angle `round8(-π/2)` is
negative, hence distinct from both rounded candidate angles, which are `0`),
and the twelve-branch table matches no case — the function falls through to
the `"NO CASE FOUND: MAJOR BUG"` fallback. -/
theorem c2_counterexample :
    calculate_curve_exit ((-1:ℝ), (0:ℝ)) ((0:ℝ), (0:ℝ)) ((1:ℝ), (1:ℝ)) 1 =
      .error .noCaseFound := by
  have hc := round8_neg_pi_div_two_neg
  simp only [calculate_curve_exit, c2_centre_eval, c2_find_dual_eval, c2_constrain_eval]
  norm_num [-Prod.mk_zero_zero, -Prod.mk_one_one, Real.cos_zero, Real.sin_zero,
    c2_mirror_eval, c2_clockwise_eval, atan2_zero_of_nonneg, atan2_neg_y_zero, round8_zero]
  rw [if_neg (ne_of_lt hc), if_neg (ne_of_lt hc),
    exit_case_table_zero_candidates false _ _ _ hc]

/-- Modelled from the spec: the non-negative sweep distance in `[0, 2π)` from
`cur` to `target`, travelling clockwise (decreasing angle) when `clockwise`
is set and counter-clockwise otherwise. -/
def sweep_dist (cur target : ℝ) (clockwise : Bool) : ℝ :=
  if clockwise then real_mod (cur - target) (2 * π)
  else real_mod (target - cur) (2 * π)

lemma sweep_dist_false_eq {cur t : ℝ} (hc1 : -π < cur) (hc2 : cur ≤ π)
    (ht1 : -π < t) (ht2 : t ≤ π) :
    sweep_dist cur t false = if cur ≤ t then t - cur else t - cur + 2 * π := by
  have hπ := Real.pi_pos
  have h2π : (0:ℝ) < 2 * π := by linarith
  simp only [sweep_dist, Bool.false_eq_true, if_false]
  by_cases h : cur ≤ t
  · rw [if_pos h, real_mod_of_nonneg_of_lt h2π (by linarith) (by linarith)]
  · rw [if_neg h, real_mod_of_neg_of_le h2π (by linarith [not_le.mp h]) (by linarith)]

lemma sweep_dist_true_eq {cur t : ℝ} (hc1 : -π < cur) (hc2 : cur ≤ π)
    (ht1 : -π < t) (ht2 : t ≤ π) :
    sweep_dist cur t true = if t ≤ cur then cur - t else cur - t + 2 * π := by
  have hπ := Real.pi_pos
  have h2π : (0:ℝ) < 2 * π := by linarith
  simp only [sweep_dist, reduceIte]
  by_cases h : t ≤ cur
  · rw [if_pos h, real_mod_of_nonneg_of_lt h2π (by linarith) (by linarith)]
  · rw [if_neg h, real_mod_of_neg_of_le h2π (by linarith [not_le.mp h]) (by linarith)]

set_option maxHeartbeats 3200000 in
/-- Claim C2 (amended): for rounded angles in `(-π, π]` with the current angle
distinct from both candidate angles (the case-analysis precondition) AND both
candidate angles nonzero, the twelve-branch case table returns the candidate
point reached first when sweeping from the current angle in the travel
direction — the candidate with the smaller sweep distance in `[0, 2π)` — and
in particular never falls through.  (When a candidate angle is exactly `0` the
table can fall through to the no-case fallback, as the counterexample shows.) -/
theorem c2_table_matches_sweep_rule (clockwise : Bool) (cur ex mir : ℝ) (pE pM : Point)
    (hc1 : -π < cur) (hc2 : cur ≤ π) (he1 : -π < ex) (he2 : ex ≤ π)
    (hm1 : -π < mir) (hm2 : mir ≤ π)
    (hexc : ex ≠ cur) (hmirc : mir ≠ cur) (hex0 : ex ≠ 0) (hmir0 : mir ≠ 0) :
    ∃ p, exit_case_table clockwise cur ex mir pE pM = some p ∧
      ((p = pE ∧ sweep_dist cur ex clockwise ≤ sweep_dist cur mir clockwise) ∨
       (p = pM ∧ sweep_dist cur mir clockwise ≤ sweep_dist cur ex clockwise)) := by
  have hπ := Real.pi_pos
  cases clockwise with
  | false =>
    have hsE := sweep_dist_false_eq hc1 hc2 he1 he2
    have hsM := sweep_dist_false_eq hc1 hc2 hm1 hm2
    simp only [exit_case_table, Bool.false_eq_true, if_false]
    by_cases hcur0 : cur > 0
    · rw [if_pos hcur0]
      split_ifs with hA hpA hB hpB hC hpC hD hpD hE hpE hF hpF
      all_goals first
        | (refine ⟨_, rfl, Or.inl ⟨rfl, ?_⟩⟩
           rw [hsE, hsM]
           try casesm* _ ∨ _, _ ∧ _
           all_goals (split_ifs <;> linarith))
        | (refine ⟨_, rfl, Or.inr ⟨rfl, ?_⟩⟩
           rw [hsE, hsM]
           try casesm* _ ∨ _, _ ∧ _
           all_goals (split_ifs <;> linarith))
        | (exfalso
           rcases lt_trichotomy ex 0 with he | he | he
           · rcases lt_trichotomy mir 0 with hm | hm | hm
             · exact hA ⟨he, hm⟩
             · exact hmir0 hm
             · rcases lt_trichotomy mir cur with hmc | hmc | hmc
               · exact hB (Or.inr ⟨hmc, hm, he⟩)
               · exact hmirc hmc
               · exact hF (Or.inr ⟨hmc, he⟩)
           · exact hex0 he
           · rcases lt_trichotomy ex cur with hec | hec | hec
             · rcases lt_trichotomy mir 0 with hm | hm | hm
               · exact hB (Or.inl ⟨hec, he, hm⟩)
               · exact hmir0 hm
               · rcases lt_trichotomy mir cur with hmc | hmc | hmc
                 · exact hC ⟨hec, he, hmc, hm⟩
                 · exact hmirc hmc
                 · exact hD (Or.inr ⟨hmc, hec, he⟩)
             · exact hexc hec
             · rcases lt_trichotomy mir 0 with hm | hm | hm
               · exact hF (Or.inl ⟨hec, hm⟩)
               · exact hmir0 hm
               · rcases lt_trichotomy mir cur with hmc | hmc | hmc
                 · exact hD (Or.inl ⟨hec, hmc, hm⟩)
                 · exact hmirc hmc
                 · exact hE ⟨hec, hmc⟩)
    · rw [if_neg hcur0]
      split_ifs with hA hpA hB hpB hC hpC hD hpD hE hpE hF hpF
      all_goals first
        | (refine ⟨_, rfl, Or.inl ⟨rfl, ?_⟩⟩
           rw [hsE, hsM]
           try casesm* _ ∨ _, _ ∧ _
           all_goals (split_ifs <;> linarith))
        | (refine ⟨_, rfl, Or.inr ⟨rfl, ?_⟩⟩
           rw [hsE, hsM]
           try casesm* _ ∨ _, _ ∧ _
           all_goals (split_ifs <;> linarith))
        | (exfalso
           rcases lt_trichotomy ex cur with he | he | he
           · rcases lt_trichotomy mir cur with hm | hm | hm
             · exact hA ⟨he, hm⟩
             · exact hmirc hm
             · rcases lt_trichotomy mir 0 with hm0 | hm0 | hm0
               · exact hB (Or.inl ⟨he, hm0, hm⟩)
               · exact hmir0 hm0
               · exact hF (Or.inr ⟨hm0, he⟩)
           · exact hexc he
           · rcases lt_trichotomy ex 0 with he0 | he0 | he0
             · rcases lt_trichotomy mir cur with hm | hm | hm
               · exact hB (Or.inr ⟨hm, he0, he⟩)
               · exact hmirc hm
               · rcases lt_trichotomy mir 0 with hm0 | hm0 | hm0
                 · exact hC ⟨he, he0, hm, hm0⟩
                 · exact hmir0 hm0
                 · exact hD (Or.inl ⟨he, he0, hm0⟩)
             · exact hex0 he0
             · rcases lt_trichotomy mir cur with hm | hm | hm
               · exact hF (Or.inl ⟨he0, hm⟩)
               · exact hmirc hm
               · rcases lt_trichotomy mir 0 with hm0 | hm0 | hm0
                 · exact hD (Or.inr ⟨hm, hm0, he0⟩)
                 · exact hmir0 hm0
                 · exact hE ⟨he0, hm0⟩)
  | true =>
    have hsE := sweep_dist_true_eq hc1 hc2 he1 he2
    have hsM := sweep_dist_true_eq hc1 hc2 hm1 hm2
    simp only [exit_case_table, reduceIte]
    by_cases hcur0 : cur > 0
    · rw [if_pos hcur0]
      split_ifs with hA hpA hB hpB hC hpC hD hpD hE hpE hF hpF
      all_goals first
        | (refine ⟨_, rfl, Or.inl ⟨rfl, ?_⟩⟩
           rw [hsE, hsM]
           try casesm* _ ∨ _, _ ∧ _
           all_goals (split_ifs <;> linarith))
        | (refine ⟨_, rfl, Or.inr ⟨rfl, ?_⟩⟩
           rw [hsE, hsM]
           try casesm* _ ∨ _, _ ∧ _
           all_goals (split_ifs <;> linarith))
        | (exfalso
           rcases lt_trichotomy ex 0 with he | he | he
           · rcases lt_trichotomy mir 0 with hm | hm | hm
             · exact hA ⟨he, hm⟩
             · exact hmir0 hm
             · rcases lt_trichotomy mir cur with hmc | hmc | hmc
               · exact hB (Or.inr ⟨hmc, hm, he⟩)
               · exact hmirc hmc
               · exact hF (Or.inr ⟨hmc, he⟩)
           · exact hex0 he
           · rcases lt_trichotomy ex cur with hec | hec | hec
             · rcases lt_trichotomy mir 0 with hm | hm | hm
               · exact hB (Or.inl ⟨hec, he, hm⟩)
               · exact hmir0 hm
               · rcases lt_trichotomy mir cur with hmc | hmc | hmc
                 · exact hC ⟨hec, he, hmc, hm⟩
                 · exact hmirc hmc
                 · exact hD (Or.inr ⟨hmc, hec, he⟩)
             · exact hexc hec
             · rcases lt_trichotomy mir 0 with hm | hm | hm
               · exact hF (Or.inl ⟨hec, hm⟩)
               · exact hmir0 hm
               · rcases lt_trichotomy mir cur with hmc | hmc | hmc
                 · exact hD (Or.inl ⟨hec, hmc, hm⟩)
                 · exact hmirc hmc
                 · exact hE ⟨hec, hmc⟩)
    · rw [if_neg hcur0]
      split_ifs with hA hpA hB hpB hC hpC hD hpD hE hpE hF hpF
      all_goals first
        | (refine ⟨_, rfl, Or.inl ⟨rfl, ?_⟩⟩
           rw [hsE, hsM]
           try casesm* _ ∨ _, _ ∧ _
           all_goals (split_ifs <;> linarith))
        | (refine ⟨_, rfl, Or.inr ⟨rfl, ?_⟩⟩
           rw [hsE, hsM]
           try casesm* _ ∨ _, _ ∧ _
           all_goals (split_ifs <;> linarith))
        | (exfalso
           rcases lt_trichotomy ex cur with he | he | he
           · rcases lt_trichotomy mir cur with hm | hm | hm
             · exact hA ⟨he, hm⟩
             · exact hmirc hm
             · rcases lt_trichotomy mir 0 with hm0 | hm0 | hm0
               · exact hB (Or.inl ⟨he, hm0, hm⟩)
               · exact hmir0 hm0
               · exact hF (Or.inr ⟨hm0, he⟩)
           · exact hexc he
           · rcases lt_trichotomy ex 0 with he0 | he0 | he0
             · rcases lt_trichotomy mir cur with hm | hm | hm
               · exact hB (Or.inr ⟨hm, he0, he⟩)
               · exact hmirc hm
               · rcases lt_trichotomy mir 0 with hm0 | hm0 | hm0
                 · exact hC ⟨he, he0, hm, hm0⟩
                 · exact hmir0 hm0
                 · exact hD (Or.inl ⟨he, he0, hm0⟩)
             · exact hex0 he0
             · rcases lt_trichotomy mir cur with hm | hm | hm
               · exact hF (Or.inl ⟨he0, hm⟩)
               · exact hmirc hm
               · rcases lt_trichotomy mir 0 with hm0 | hm0 | hm0
                 · exact hD (Or.inr ⟨hm, hm0, he0⟩)
                 · exact hmir0 hm0
                 · exact hE ⟨he0, hm0⟩)

/-- Claim C2 witness: the equivalence theorem applied to the clockwise table
at current angle `3`, candidates `1` and `2` (all in `(-π, π]`, distinct from
the current angle, nonzero): the table returns the sweep-rule choice. -/
theorem c2_witness :
    ∃ p, exit_case_table true 3 1 2 ((1:ℝ), (0:ℝ)) ((2:ℝ), (0:ℝ)) = some p ∧
      ((p = ((1:ℝ), (0:ℝ)) ∧ sweep_dist 3 1 true ≤ sweep_dist 3 2 true) ∨
       (p = ((2:ℝ), (0:ℝ)) ∧ sweep_dist 3 2 true ≤ sweep_dist 3 1 true)) := by
  have hπ3 := Real.pi_gt_three
  exact c2_table_matches_sweep_rule true 3 1 2 ((1:ℝ), (0:ℝ)) ((2:ℝ), (0:ℝ))
    (by linarith) (by linarith) (by linarith) (by linarith) (by linarith) (by linarith)
    (by norm_num) (by norm_num) (by norm_num) (by norm_num)
